import Mathlib

/-
  Verification of the walle_2 control firmware (src/main/main.ino).

  Shallow embedding conventions:
  * float values are modelled as exact rationals;
  * millisecond timestamps (unsigned long) are modelled as naturals, and the
    unsigned subtractions performed by the code on monotone timestamps are
    modelled by truncated natural subtraction;
  * the one place where the code can divide by zero in float arithmetic
    (the interpolation fraction of a zero-duration segment) is modelled by a
    dedicated three-valued type FFrac, so that the IEEE outcomes 0/0 = NaN
    and x/0 = +infinity (x > 0) drive the same branch decisions as the code;
  * the discrete NEC-remote dispatch table only enqueues preset animations and
    is not exercised by any property below; the modelled infrared input is the
    custom NEC2/ONKYO packed protocol.
-/

namespace Walle2

/-- Clamp a value into a closed interval, translated from the clamp template
at the top of main.ino. -/
def clampQ (v low high : ℚ) : ℚ :=
  if v < low then low
  else if v > high then high
  else v

/-- Animation segment kinds, from enum AnimationType in main.ino. -/
inductive AnimationType where
  | LinearToOver
  | LinearToAt
  | LinearBy
  | Constant
deriving DecidableEq

/-- Animation segment, from struct Animation in main.ino.  The C++ struct
stores duration and speed in a union; here they are separate fields, with the
unused one holding a default.  The duration of a LinearToAt segment is filled
in at enqueue time, exactly as in the code. -/
structure Animation where
  type : AnimationType
  millisDuration : ℕ
  speed : ℚ
  value : ℚ
deriving DecidableEq

/-- Factory Animation.linearToOver from main.ino. -/
def Animation.linearToOver (value : ℚ) (duration : ℕ) : Animation :=
  ⟨AnimationType.LinearToOver, duration, 0, value⟩

/-- Factory Animation.linearToAt from main.ino; the union slot that will hold
the duration is not yet meaningful (it is computed at enqueue time). -/
def Animation.linearToAt (value : ℚ) (speed : ℚ) : Animation :=
  ⟨AnimationType.LinearToAt, 0, speed, value⟩

/-- Factory Animation.linearBy from main.ino; value holds the increment until
the target is resolved at enqueue time. -/
def Animation.linearBy (value : ℚ) (duration : ℕ) : Animation :=
  ⟨AnimationType.LinearBy, duration, 0, value⟩

/-- Factory Animation.instantTo from main.ino. -/
def Animation.instantTo (value : ℚ) : Animation :=
  Animation.linearToOver value 0

/-- Factory Animation.constantOver from main.ino (the value member is left
value-initialized, i.e. zero). -/
def Animation.constantOver (duration : ℕ) : Animation :=
  ⟨AnimationType.Constant, duration, 0, 0⟩

/-- Per-channel state of class Animatable in main.ino: current value, FIFO
animation queue, and the interpolation baseline (millisStart, valueStart). -/
structure Chan where
  value : ℚ
  queue : List Animation
  millisStart : ℕ
  valueStart : ℚ
deriving DecidableEq

/-- Animatable::queueAnimation from main.ino.  If the queue is empty the
baseline is recorded first.  A LinearBy segment resolves its target to
clamp(current + increment, 0, 1) and is dropped when the resulting change is
at most epsilon = 0.05.  A LinearToAt segment resolves its duration to
abs(target - current) / speed truncated to an unsigned integer (the float
quotient is converted to unsigned long); the source never enqueues LinearToAt
with speed <= 0, for which that conversion would be undefined, and the model
truncates the rational quotient. -/
def queueAnimation (c : Chan) (a : Animation) (now : ℕ) : Chan :=
  let c1 := if c.queue.isEmpty then { c with millisStart := now, valueStart := c.value } else c
  match a.type with
  | AnimationType.LinearBy =>
      let valueCurrent := c1.value
      let valueTarget := clampQ (valueCurrent + a.value) 0 1
      if |valueCurrent - valueTarget| ≤ 1/20 then c1
      else { c1 with queue := c1.queue ++ [{ a with value := valueTarget }] }
  | AnimationType.LinearToAt =>
      let valueCurrent := c1.value
      let duration : ℕ := ⌊|a.value - valueCurrent| / a.speed⌋₊
      { c1 with queue := c1.queue ++ [{ a with millisDuration := duration }] }
  | _ => { c1 with queue := c1.queue ++ [a] }

/-- Animatable::queueAnimations from main.ino: enqueue a batch in order. -/
def queueAnimations (c : Chan) (animations : List Animation) (now : ℕ) : Chan :=
  animations.foldl (fun c a => queueAnimation c a now) c

/-- Result of the float division computing the interpolation fraction:
either NaN (0/0), +infinity (positive/0), or an ordinary value.  Both
operands of the division in the code are nonnegative. -/
inductive FFrac where
  | nan
  | inf
  | val (q : ℚ)
deriving DecidableEq

/-- IEEE-style division of the nonnegative elapsed time by the duration. -/
def ffracDiv (a b : ℚ) : FFrac :=
  if b = 0 then (if a = 0 then FFrac.nan else FFrac.inf)
  else FFrac.val (a / b)

/-- The comparison fraction >= 1.0 performed by the code: false for NaN,
true for +infinity. -/
def FFrac.ge1 : FFrac → Bool
  | FFrac.nan => false
  | FFrac.inf => true
  | FFrac.val q => decide (1 ≤ q)

/-- Animatable::transitionToNextAnimation from main.ino. -/
def transitionToNextAnimation (c : Chan) (now : ℕ) : Chan :=
  if c.queue.isEmpty then { c with millisStart := 0 }
  else { c with millisStart := now, valueStart := c.value }

/-- Animatable::updateFrame(millisNow) from main.ino, for one channel.  For a
linear segment the code computes fraction = (now - millisStart) / duration in
float; when fraction >= 1 it snaps the value to the target, pops the segment
and transitions, otherwise it blends.  When the fraction is NaN (elapsed 0,
duration 0) the comparison fails and the C++ blend writes NaN into the value;
no property below inspects the value written on that path, only the queue, so
the model leaves the stored value untouched there. -/
def chanUpdateFrame (c : Chan) (now : ℕ) : Chan :=
  match c.queue with
  | [] => c
  | a :: rest =>
    match a.type with
    | AnimationType.Constant =>
        if a.millisDuration ≤ now - c.millisStart then
          transitionToNextAnimation { c with queue := rest } now
        else c
    | _ =>
        let fraction := ffracDiv ((now - c.millisStart : ℕ) : ℚ) (a.millisDuration : ℚ)
        if fraction.ge1 then
          transitionToNextAnimation { c with value := a.value, queue := rest } now
        else
          match fraction with
          | FFrac.val f => { c with value := (1 - f) * c.valueStart + f * a.value }
          | _ => c

/-- Animatable::setValue: direct write that bypasses the queue. -/
def setChanValue (c : Chan) (v : ℚ) : Chan :=
  { c with value := v }

/-- State of class PushButton in main.ino. -/
structure ButtonState where
  last : ℕ
  released : Bool
deriving DecidableEq

/-- PushButton::isPushed from main.ino, as a function of the scan time and the
pin level (pinLow = true means the pin reads LOW, i.e. pressed).  Returns the
reported push together with the successor state. -/
def isPushedStep (s : ButtonState) (now : ℕ) (pinLow : Bool) : Bool × ButtonState :=
  if now - s.last < 100 then (false, s)
  else
    if pinLow && s.released then (true, ⟨now, false⟩)
    else if !pinLow then (false, ⟨now, true⟩)
    else (false, ⟨now, s.released⟩)

/-- Outcomes of a sequence of button scans, each scan a (time, pinLow) pair. -/
def buttonRun (s : ButtonState) : List (ℕ × Bool) → List Bool
  | [] => []
  | p :: ps =>
      let r := isPushedStep s p.1 p.2
      r.1 :: buttonRun r.2 ps

/-- Final button state after a sequence of scans. -/
def buttonFinal (s : ButtonState) : List (ℕ × Bool) → ButtonState
  | [] => s
  | p :: ps => buttonFinal (isPushedStep s p.1 p.2).2 ps

/-- AudioQueue::Entry from main.ino: a timed wait or a track to play, each
carrying the timestamp captured when it was enqueued. -/
inductive AEntry where
  | delay (millisStart : ℕ) (duration : ℕ)
  | play (millisStart : ℕ) (index : ℕ)
deriving DecidableEq

/-- AudioQueue::updateFrame from main.ino for one tick: only the front entry
is examined; a Delay entry is popped once now > millisStart + duration, and a
Play entry issues its track (recorded in the played list) and is popped. -/
def audioFrame (q : List AEntry) (played : List ℕ) (now : ℕ) : List AEntry × List ℕ :=
  match q with
  | [] => (q, played)
  | e :: rest =>
    match e with
    | AEntry.delay s d => if s + d < now then (rest, played) else (q, played)
    | AEntry.play _ i => (rest, played ++ [i])

/-- Audio queue evolution over a list of tick times. -/
def audioRun (st : List AEntry × List ℕ) (ticks : List ℕ) : List AEntry × List ℕ :=
  ticks.foldl (fun st t => audioFrame st.1 st.2 t) st

/-- Joystick byte normalization (raw - 127.5) / 127.5 from main.ino. -/
def normalizeJoy (raw : ℕ) : ℚ :=
  ((raw : ℚ) - 255/2) / (255/2)

/-- High byte of the 16-bit payload: (value AND 0xFF00) shifted right 8. -/
def byteHi (v : ℕ) : ℕ := v / 256 % 256

/-- Low byte of the 16-bit payload. -/
def byteLo (v : ℕ) : ℕ := v % 256

/-- The sign convention v >= 0 ? 1 : -1 used for xSign and ySign in main.ino:
zero is treated as positive. -/
def signQ (v : ℚ) : ℚ := if 0 ≤ v then 1 else -1

/-- The differential-drive mapping of the type 2 (left joystick) branch of
loop() in main.ino, lines 746-756. -/
def driveMap (x y : ℚ) : ℚ × ℚ :=
  let xSign := signQ x
  let ySign := signQ y
  if xSign = ySign then
    (ySign * max |x| |y|, ySign * (|y| - |x|))
  else
    (ySign * (|y| - |x|), ySign * max |x| |y|)

/-- The move-amount tiering of the type 3 (right joystick) branch of loop()
in main.ino: 0.2 for a large deflection, 0.1 for a medium one, 0 inside the
dead zone, signed like y. -/
def armMoveAmount (y : ℚ) : ℚ :=
  let ySign := signQ y
  if 19/20 < |y| then 1/5 * ySign
  else if 1/10 < |y| then 1/10 * ySign
  else 0

/-- The two arm channels. -/
inductive Side where
  | left
  | right
deriving DecidableEq

/-- The type 3 (right joystick) branch of loop() in main.ino, lines 771-824:
if less than 500 ms have passed since the last arm move the packet is dropped;
otherwise each selected arm (moveLeft when x is at most 0.5, moveRight when x
is at least -0.5) receives a 100 ms LinearBy command of the computed amount,
and the rate-limit timestamp advances exactly when some command was issued.
Returns the issued (channel, animation) commands and the new timestamp. -/
def armStep (last now : ℕ) (x y : ℚ) : List (Side × Animation) × ℕ :=
  if now - last < 500 then ([], last)
  else
    let amount := armMoveAmount y
    let cmds :=
      (if amount ≠ 0 ∧ x ≤ 1/2 then [(Side.left, Animation.linearBy amount 100)] else []) ++
      (if amount ≠ 0 ∧ -(1/2) ≤ x then [(Side.right, Animation.linearBy amount 100)] else [])
    (cmds, if cmds = [] then last else now)

/-- Whether each packet of a type 3 packet sequence (time, x, y normalized)
issued an arm move, threading the rate-limit timestamp through. -/
def armRun (last : ℕ) : List (ℕ × ℚ × ℚ) → List Bool
  | [] => []
  | p :: ps =>
      let r := armStep last p.1 p.2.1 p.2.2
      (!r.1.isEmpty) :: armRun r.2 ps

/-- Rate-limit timestamp after a sequence of type 3 packets. -/
def armLast (last : ℕ) : List (ℕ × ℚ × ℚ) → ℕ
  | [] => last
  | p :: ps => armLast (armStep last p.1 p.2.1 p.2.2).2 ps

/-- Whole-controller state: the eight registered channels in their
construction order, the audio queue with the tracks issued so far, and the
module-level timers and flags of main.ino. -/
structure Robot where
  head : Chan
  leftArm : Chan
  rightArm : Chan
  eyeTilter : Chan
  leftTread : Chan
  rightTread : Chan
  leftEye : Chan
  rightEye : Chan
  audio : List AEntry
  played : List ℕ
  millisIdleStart : ℕ
  breathingValue : ℚ
  millisLastArmMove : ℕ
  button : ButtonState
deriving DecidableEq

/-- isIdling() from main.ino. -/
def isIdlingAt (r : Robot) (now : ℕ) : Bool :=
  decide (10000 ≤ now - r.millisIdleStart)

/-- resetIdleCount() from main.ino: when called while idling it resets the
breathing value to 1, and it always restamps the idle timer. -/
def resetIdleCount (r : Robot) (now : ℕ) : Robot :=
  let r1 := if isIdlingAt r now then { r with breathingValue := (1 : ℚ) } else r
  { r1 with millisIdleStart := now }

/-- Whether any registered channel has a pending animation. -/
def anyAnimatableBusy (r : Robot) : Bool :=
  !r.head.queue.isEmpty || !r.leftArm.queue.isEmpty || !r.rightArm.queue.isEmpty ||
  !r.eyeTilter.queue.isEmpty || !r.leftTread.queue.isEmpty || !r.rightTread.queue.isEmpty ||
  !r.leftEye.queue.isEmpty || !r.rightEye.queue.isEmpty

/-- Animatable::updateFrame (the static scheduler tick) from main.ino: every
channel ticks once; each busy channel calls resetIdleCount.  All those calls
share one timestamp and the first one restamps the idle timer, so their net
effect equals a single resetIdleCount performed before the channel updates,
which is how the model states it. -/
def animatablesUpdate (r : Robot) (now : ℕ) : Robot :=
  let r1 := if anyAnimatableBusy r then resetIdleCount r now else r
  { r1 with
    head := chanUpdateFrame r1.head now,
    leftArm := chanUpdateFrame r1.leftArm now,
    rightArm := chanUpdateFrame r1.rightArm now,
    eyeTilter := chanUpdateFrame r1.eyeTilter now,
    leftTread := chanUpdateFrame r1.leftTread now,
    rightTread := chanUpdateFrame r1.rightTread now,
    leftEye := chanUpdateFrame r1.leftEye now,
    rightEye := chanUpdateFrame r1.rightEye now }

/-- AudioQueue::updateFrame (static) from main.ino: a nonempty queue counts
as activity and the front entry is processed. -/
def audioUpdate (r : Robot) (now : ℕ) : Robot :=
  match r.audio with
  | [] => r
  | _ :: _ =>
      let r1 := resetIdleCount r now
      let res := audioFrame r1.audio r1.played now
      { r1 with audio := res.1, played := res.2 }

/-- demo() from main.ino: preset head and eye sequences plus a delayed track. -/
def demoRun (r : Robot) (now : ℕ) : Robot :=
  let headAnimation := [Animation.linearToAt (1/2) (1/2000), Animation.constantOver 500,
    Animation.linearToOver 0 1000, Animation.linearToOver 1 2000,
    Animation.linearToOver (1/2) 1000]
  let eyeAnimation := [Animation.instantTo 1, Animation.constantOver 4500,
    Animation.linearToOver 0 20, Animation.constantOver 100,
    Animation.linearToOver 1 20, Animation.constantOver 300,
    Animation.linearToOver 0 20, Animation.constantOver 100,
    Animation.linearToOver 1 20]
  let r1 := { r with head := queueAnimations r.head headAnimation now }
  let r2 := { r1 with leftEye := queueAnimations r1.leftEye eyeAnimation now,
                      rightEye := queueAnimations r1.rightEye eyeAnimation now }
  { r2 with audio := r2.audio ++ [AEntry.delay now 5000, AEntry.play now 2] }

/-- Apply one issued arm command to its channel. -/
def applyArmCmd (r : Robot) (cmd : Side × Animation) (now : ℕ) : Robot :=
  match cmd.1 with
  | Side.left => { r with leftArm := queueAnimation r.leftArm cmd.2 now }
  | Side.right => { r with rightArm := queueAnimation r.rightArm cmd.2 now }

/-- Apply the issued arm commands in order. -/
def applyArmCmds (r : Robot) (cmds : List (Side × Animation)) (now : ℕ) : Robot :=
  cmds.foldl (fun r c => applyArmCmd r c now) r

/-- The custom packed-protocol dispatch (NEC2 and ONKYO packets) of loop() in
main.ino: the top byte selects the packet type, the bottom 16 bits carry the
payload.  Type 2 drives the treads directly through the differential-drive
mapping, type 3 goes through the rate-limited arm mapper, type 1 runs the demo
sequence; other types are ignored. -/
def dispatchCustom (r : Robot) (now : ℕ) (code : ℕ) : Robot :=
  let ty := code / 16777216 % 256
  let v := code % 65536
  if ty = 2 then
    let x := normalizeJoy (byteHi v)
    let y := normalizeJoy (byteLo v)
    let lr := driveMap x y
    { r with leftTread := setChanValue r.leftTread lr.1,
             rightTread := setChanValue r.rightTread lr.2 }
  else if ty = 3 then
    let x := normalizeJoy (byteHi v)
    let y := normalizeJoy (byteLo v)
    let res := armStep r.millisLastArmMove now x y
    { applyArmCmds r res.1 now with millisLastArmMove := res.2 }
  else if ty = 1 then
    demoRun r now
  else r

/-- The idle breathing wave of loop() in main.ino as a function of
idleDuration = (now - millisIdleStart) mod 3600: the first half ramps from 1
down to 0, the second half ramps from 0 back up towards 1. -/
def breathingWave (idleDuration : ℕ) : ℚ :=
  if (idleDuration : ℚ) < 1800 then 1 - (idleDuration : ℚ) / 1800
  else -1 + (idleDuration : ℚ) / 1800

/-- External inputs of one loop iteration: the button pin level and an
optional decoded custom-protocol packet. -/
structure LoopIn where
  pinLow : Bool
  ir : Option ℕ
deriving DecidableEq

/-- One iteration of loop() from main.ino: tick the animation scheduler, tick
the audio queue, poll the button (a push runs the demo and returns early),
dispatch a decoded packet, and finally, when idling, force the treads to
neutral and drive both eyes from the breathing wave. -/
def loopStep (r : Robot) (now : ℕ) (inp : LoopIn) : Robot :=
  let r1 := animatablesUpdate r now
  let r2 := audioUpdate r1 now
  let pb := isPushedStep r2.button now inp.pinLow
  let r3 := { r2 with button := pb.2 }
  if pb.1 then demoRun (resetIdleCount r3 now) now
  else
    let r4 := match inp.ir with
      | none => r3
      | some code => dispatchCustom (resetIdleCount r3 now) now code
    if 10000 ≤ now - r4.millisIdleStart then
      let r5 := { r4 with leftTread := setChanValue r4.leftTread 0,
                          rightTread := setChanValue r4.rightTread 0 }
      let bv := breathingWave ((now - r5.millisIdleStart) % 3600)
      { r5 with breathingValue := bv,
                leftEye := setChanValue r5.leftEye bv,
                rightEye := setChanValue r5.rightEye bv }
    else r4

/-- Run the control loop over a list of (time, inputs) iterations. -/
def runLoop (r : Robot) (steps : List (ℕ × LoopIn)) : Robot :=
  steps.foldl (fun r s => loopStep r s.1 s.2) r

/-- A state with no pending animation or audio work. -/
def Robot.quiet (r : Robot) : Prop :=
  r.head.queue = [] ∧ r.leftArm.queue = [] ∧ r.rightArm.queue = [] ∧
  r.eyeTilter.queue = [] ∧ r.leftTread.queue = [] ∧ r.rightTread.queue = [] ∧
  r.leftEye.queue = [] ∧ r.rightEye.queue = [] ∧ r.audio = []

/-- Inputs carrying no activity: button pin not pressed, no decoded packet. -/
def LoopIn.quietIn (inp : LoopIn) : Prop :=
  inp.pinLow = false ∧ inp.ir = none

/-- A fresh channel at value 0 with an empty queue, used by concrete inputs
of the C2 theorems. -/
def c2chan : Chan := ⟨0, [], 0, 0⟩

/-- A zero-duration LinearToOver segment towards target 1. -/
def c3seg : Animation := ⟨AnimationType.LinearToOver, 0, 0, 1⟩

/-- A channel holding c3seg whose baseline millisecond is 5, used by the C3
counterexample (ticked in that same millisecond). -/
def c3chan : Chan := ⟨0, [c3seg], 5, 0⟩

/-- A 100 ms LinearToOver segment towards target 1. -/
def c3wseg : Animation := ⟨AnimationType.LinearToOver, 100, 0, 1⟩

/-- A channel holding c3wseg with baseline 0, used by the C3 witness. -/
def c3wchan : Chan := ⟨0, [c3wseg], 0, 0⟩

/-- A fresh channel at value 0, used by the C4 witness. -/
def c4chan : Chan := ⟨0, [], 0, 0⟩

/-- A quiet robot state mirroring the values established by setup() in
main.ino, with all timers at zero, used by the C7 and C8 witnesses. -/
def rQuiet : Robot :=
  { head := ⟨1/2, [], 0, 0⟩, leftArm := ⟨0, [], 0, 0⟩, rightArm := ⟨0, [], 0, 0⟩,
    eyeTilter := ⟨0, [], 0, 0⟩, leftTread := ⟨0, [], 0, 0⟩, rightTread := ⟨0, [], 0, 0⟩,
    leftEye := ⟨1, [], 0, 0⟩, rightEye := ⟨1, [], 0, 0⟩,
    audio := [], played := [], millisIdleStart := 0, breathingValue := 1,
    millisLastArmMove := 0, button := ⟨0, true⟩ }

/-- Claim C1: for joystick-1 coordinates (x, y) in the square [-1,1]^2 the
differential-drive mapping computes, with sign 0 treated as +1: when
sign x = sign y, left = sign y * max(|x|, |y|) and right = sign y * (|y| - |x|),
otherwise the two formulas swap sides; in particular (0,1) maps to (1,1),
(1,1) to (1,0), (-1,1) to (0,1) and (0,-1) to (-1,-1). -/
theorem c1_drive_mapping (x y : ℚ) (hx : -1 ≤ x ∧ x ≤ 1) (hy : -1 ≤ y ∧ y ≤ 1) :
    (signQ x = signQ y →
      driveMap x y = (signQ y * max |x| |y|, signQ y * (|y| - |x|))) ∧
    (signQ x ≠ signQ y →
      driveMap x y = (signQ y * (|y| - |x|), signQ y * max |x| |y|)) ∧
    driveMap 0 1 = (1, 1) ∧ driveMap 1 1 = (1, 0) ∧
    driveMap (-1) 1 = (0, 1) ∧ driveMap 0 (-1) = (-1, -1) := by
  refine ⟨fun h => ?_, fun h => ?_, ?_, ?_, ?_, ?_⟩
  · simp [driveMap, h]
  · simp [driveMap, h]
  all_goals norm_num [driveMap, signQ]

/-- Witness for C1 at the concrete corner (x, y) = (1, 1). -/
theorem c1_drive_mapping_witness :
    ((-1 : ℚ) ≤ 1 ∧ (1 : ℚ) ≤ 1) ∧ driveMap 1 1 = (1, 0) :=
  ⟨⟨by norm_num, by norm_num⟩,
    (c1_drive_mapping 1 1 ⟨by norm_num, by norm_num⟩ ⟨by norm_num, by norm_num⟩).2.2.2.1⟩

/-- Counterexample to claim C2 as stated: enqueuing LinearToAt(target 1,
speed 3/4) on a channel at value 0 records duration 1 because the float
quotient is converted to unsigned long, and 1 differs from the exact
quotient abs(target - v0) / speed = 4/3. -/
theorem c2_counterexample :
    (queueAnimation c2chan (Animation.linearToAt 1 (3/4)) 0).queue
      = [⟨AnimationType.LinearToAt, 1, 3/4, 1⟩] ∧
    ((1 : ℚ) ≠ |(1 : ℚ) - c2chan.value| / (3/4)) := by
  constructor
  · have hfloor : ⌊(4 : ℚ)/3⌋₊ = 1 := by
      rw [Nat.floor_eq_iff (by norm_num)]
      norm_num
    simp [queueAnimation, Animation.linearToAt, c2chan, hfloor]
  · norm_num [c2chan]

/-- Claim C2 (amended): the duration recorded for a LinearToAt(target, speed)
segment with speed > 0, enqueued while the channel value is v0, is the
truncation (floor) of abs(target - v0) / speed to whole milliseconds. -/
theorem c2_lineartoat_duration (c : Chan) (target speed : ℚ) (now : ℕ)
    (hs : 0 < speed) :
    (queueAnimation c (Animation.linearToAt target speed) now).queue
      = c.queue ++ [⟨AnimationType.LinearToAt, ⌊|target - c.value| / speed⌋₊, speed, target⟩] := by
  unfold queueAnimation Animation.linearToAt
  by_cases he : c.queue.isEmpty <;> simp [he]

/-- Witness for the amended C2 at target 1, speed 1/2000, current value 0. -/
theorem c2_lineartoat_duration_witness :
    (0 : ℚ) < 1/2000 ∧
    (queueAnimation c2chan (Animation.linearToAt 1 (1/2000)) 0).queue
      = c2chan.queue
          ++ [⟨AnimationType.LinearToAt, ⌊|(1 : ℚ) - c2chan.value| / (1/2000)⌋₊, 1/2000, 1⟩] :=
  ⟨by norm_num, c2_lineartoat_duration c2chan 1 (1/2000) 0 (by norm_num)⟩

/-- Claim C4: enqueuing LinearBy(delta, d) resolves the target once, at
enqueue time, to clamp(current + delta, 0, 1); when the resolved change is at
most the 0.05 epsilon the animation queue is left unchanged (same length and
contents), otherwise the resolved segment is appended. -/
theorem c4_linearby_epsilon (c : Chan) (delta : ℚ) (d now : ℕ) :
    (|c.value - clampQ (c.value + delta) 0 1| ≤ 1/20 →
      (queueAnimation c (Animation.linearBy delta d) now).queue = c.queue) ∧
    (¬ |c.value - clampQ (c.value + delta) 0 1| ≤ 1/20 →
      (queueAnimation c (Animation.linearBy delta d) now).queue
        = c.queue ++ [⟨AnimationType.LinearBy, d, 0, clampQ (c.value + delta) 0 1⟩]) := by
  constructor <;> intro h <;>
    rw [show (1 : ℚ)/20 = 20⁻¹ from one_div 20] at h <;>
    by_cases he : c.queue.isEmpty <;>
      simp [queueAnimation, Animation.linearBy, he, h]

/-- Witness for C4: on a fresh channel at value 0, a LinearBy of 1/100 is
dropped (change below epsilon) while a LinearBy of 1/2 is appended with its
target resolved to 1/2. -/
theorem c4_linearby_epsilon_witness :
    (queueAnimation c4chan (Animation.linearBy (1/100) 200) 0).queue = c4chan.queue ∧
    (queueAnimation c4chan (Animation.linearBy (1/2) 200) 0).queue
      = c4chan.queue ++ [⟨AnimationType.LinearBy, 200, 0, clampQ (c4chan.value + 1/2) 0 1⟩] :=
  ⟨(c4_linearby_epsilon c4chan (1/100) 200 0).1 (by norm_num [c4chan, clampQ, abs_le]),
   (c4_linearby_epsilon c4chan (1/2) 200 0).2 (by norm_num [c4chan, clampQ, lt_abs])⟩

/-- The completion test fraction >= 1 of a linear segment succeeds exactly
when the duration is positive and fully elapsed, or when the duration is zero
and some time has elapsed (a positive quantity divided by zero is +infinity);
it fails in the NaN case 0/0. -/
theorem ffrac_ge1_iff (e d : ℕ) :
    (ffracDiv (e : ℚ) (d : ℚ)).ge1 = true ↔ (0 < d ∧ d ≤ e) ∨ (d = 0 ∧ 0 < e) := by
  rcases Nat.eq_zero_or_pos d with hd | hd
  · subst hd
    rcases Nat.eq_zero_or_pos e with he | he
    · subst he
      simp [ffracDiv, FFrac.ge1]
    · have he2 : ((e : ℚ) ≠ 0) := by exact_mod_cast he.ne'
      simp [ffracDiv, FFrac.ge1, he2, he]
  · have hdq : ((d : ℚ) ≠ 0) := by exact_mod_cast hd.ne'
    have hdq0 : (0 : ℚ) < (d : ℚ) := by exact_mod_cast hd
    simp only [ffracDiv, if_neg hdq, FFrac.ge1, decide_eq_true_eq]
    rw [one_le_div hdq0]
    constructor
    · intro hle
      exact Or.inl ⟨hd, by exact_mod_cast hle⟩
    · rintro (⟨-, hle⟩ | ⟨h0, -⟩)
      · exact_mod_cast hle
      · omega

/-- Counterexample to claim C3 as stated: c3chan holds a zero-duration linear
segment whose baseline millisecond is 5, so a tick at time 5 satisfies
elapsed >= duration (0 >= 0); yet the float fraction is 0/0, the comparison
fraction >= 1 fails, and the tick neither pops the segment nor sets the value
to the target (the C++ blend writes NaN on this path, which likewise differs
from the target). -/
theorem c3_counterexample :
    5 - c3chan.millisStart ≥ c3seg.millisDuration ∧
    (chanUpdateFrame c3chan 5).queue = [c3seg] ∧
    (chanUpdateFrame c3chan 5).value ≠ c3seg.value := by
  refine ⟨by norm_num [c3chan, c3seg], ?_, ?_⟩
  · decide
  · decide

/-- Claim C3 (amended): for a linear segment (LinearToOver, LinearToAt or
LinearBy) at the head of the queue, any tick with elapsed >= duration in
which additionally the duration is positive or the tick time is strictly
later than the baseline millisecond sets the value exactly to the target (no
residual interpolation error) and pops the segment; a zero-duration segment
therefore completes on the first tick strictly after its baseline, while a
tick within the baseline millisecond computes the fraction 0/0, fails the
completion comparison and leaves the segment queued. -/
theorem c3_linear_completion (c : Chan) (a : Animation) (rest : List Animation) (now : ℕ)
    (hq : c.queue = a :: rest)
    (hty : a.type = AnimationType.LinearToOver ∨ a.type = AnimationType.LinearToAt ∨
      a.type = AnimationType.LinearBy)
    (ht : c.millisStart + a.millisDuration ≤ now)
    (hpos : 0 < a.millisDuration ∨ c.millisStart < now) :
    (chanUpdateFrame c now).value = a.value ∧ (chanUpdateFrame c now).queue = rest := by
  obtain ⟨v, q, ms, vs⟩ := c
  obtain ⟨ty, dur, sp, tv⟩ := a
  obtain rfl : q = ⟨ty, dur, sp, tv⟩ :: rest := hq
  have ht2 : ms + dur ≤ now := ht
  have hpos2 : 0 < dur ∨ ms < now := hpos
  have hge : (ffracDiv ((now - ms : ℕ) : ℚ) ((dur : ℕ) : ℚ)).ge1 = true := by
    rw [ffrac_ge1_iff]
    rcases Nat.eq_zero_or_pos dur with h0 | h0
    · exact Or.inr ⟨h0, by omega⟩
    · exact Or.inl ⟨h0, by omega⟩
  have hres : chanUpdateFrame ⟨v, ⟨ty, dur, sp, tv⟩ :: rest, ms, vs⟩ now
      = transitionToNextAnimation ⟨tv, rest, ms, vs⟩ now := by
    rcases hty with h | h | h <;> obtain rfl : ty = _ := h <;>
      simp only [chanUpdateFrame] <;> rw [hge] <;> rfl
  rw [hres]
  unfold transitionToNextAnimation
  split_ifs <;> exact ⟨rfl, rfl⟩

/-- Witness for the amended C3: a 100 ms segment towards target 1, ticked
exactly at its deadline, snaps to 1 and is popped. -/
theorem c3_linear_completion_witness :
    (chanUpdateFrame c3wchan 100).value = c3wseg.value ∧
    (chanUpdateFrame c3wchan 100).queue = [] :=
  c3_linear_completion c3wchan c3wseg [] 100 rfl (Or.inl rfl)
    (by norm_num [c3wchan, c3wseg]) (Or.inl (by norm_num [c3wseg]))

/-- Claim C5: for a type 3 packet accepted by the rate limiter, the left arm
is selected exactly when x <= 1/2 and the right arm exactly when x >= -1/2
(so both arms are selected for x in [-1/2, 1/2]); the step is 0.2 signed
like y when |y| > 0.95, 0.1 signed like y when 0.1 < |y| <= 0.95, and 0 when
|y| <= 0.1; a non-zero step issues a 100 ms LinearBy command to each selected
arm channel and a zero step issues none; in particular (0, 1) steps both arms
by +1/5 and (0, 1/20) moves neither arm. -/
theorem c5_arm_mapping (last now : ℕ) (x y : ℚ) (hrate : 500 ≤ now - last) :
    ((Side.left, Animation.linearBy (armMoveAmount y) 100) ∈ (armStep last now x y).1 ↔
      armMoveAmount y ≠ 0 ∧ x ≤ 1/2) ∧
    ((Side.right, Animation.linearBy (armMoveAmount y) 100) ∈ (armStep last now x y).1 ↔
      armMoveAmount y ≠ 0 ∧ -(1/2) ≤ x) ∧
    (19/20 < |y| → armMoveAmount y = 1/5 * signQ y) ∧
    (1/10 < |y| ∧ |y| ≤ 19/20 → armMoveAmount y = 1/10 * signQ y) ∧
    (|y| ≤ 1/10 → armMoveAmount y = 0) ∧
    (armMoveAmount y = 0 → (armStep last now x y).1 = []) ∧
    (armStep last now 0 1).1
      = [(Side.left, Animation.linearBy (1/5) 100), (Side.right, Animation.linearBy (1/5) 100)] ∧
    (armStep last now 0 (1/20)).1 = [] := by
  have hnb : ¬ (now - last < 500) := by omega
  refine ⟨?_, ?_, ?_, ?_, ?_, ?_, ?_, ?_⟩
  · by_cases h1 : armMoveAmount y ≠ 0 ∧ x ≤ 1/2 <;>
      by_cases h2 : armMoveAmount y ≠ 0 ∧ -(1/2) ≤ x <;>
        simp [armStep, hnb, h1, h2]
  · by_cases h1 : armMoveAmount y ≠ 0 ∧ x ≤ 1/2 <;>
      by_cases h2 : armMoveAmount y ≠ 0 ∧ -(1/2) ≤ x <;>
        simp [armStep, hnb, h1, h2]
  · intro h
    rw [armMoveAmount]
    simp only [if_pos h]
  · rintro ⟨h1, h2⟩
    rw [armMoveAmount]
    simp only [if_neg (not_lt.mpr h2), if_pos h1]
  · intro h
    rw [armMoveAmount]
    have h1 : ¬ (19/20 < |y|) := by
      rw [not_lt]
      linarith
    have h2 : ¬ (1/10 < |y|) := not_lt.mpr h
    simp only [if_neg h1, if_neg h2]
  · intro h0
    simp [armStep, hnb, h0]
  · have ha : armMoveAmount 1 = 1/5 := by
      rw [armMoveAmount, abs_one]
      norm_num [signQ]
    norm_num [armStep, hnb, ha]
  · have ha : armMoveAmount (1/20) = 0 := by
      rw [armMoveAmount, show |(1 : ℚ)/20| = 1/20 from abs_of_pos (by norm_num)]
      norm_num
    norm_num [armStep, hnb, ha]

/-- Witness for C5 at last = 0, now = 1000: the packet is accepted and the
two concrete joystick positions behave as the claim states. -/
theorem c5_arm_mapping_witness :
    (armStep 0 1000 0 1).1
      = [(Side.left, Animation.linearBy (1/5) 100), (Side.right, Animation.linearBy (1/5) 100)] ∧
    (armStep 0 1000 0 (1/20)).1 = [] :=
  ⟨(c5_arm_mapping 0 1000 0 1 (by norm_num)).2.2.2.2.2.2.1,
   (c5_arm_mapping 0 1000 0 1 (by norm_num)).2.2.2.2.2.2.2⟩

/-- Element lookup at the junction of an append. -/
theorem getElem_app_cons {α : Type} (L1 : List α) (x : α) (L2 : List α) :
    (L1 ++ x :: L2)[L1.length]? = some x := by
  induction L1 with
  | nil => simp
  | cons a t ih => simpa using ih

/-- armRun distributes over append, threading the rate-limit timestamp. -/
theorem armRun_append (last : ℕ) (l1 l2 : List (ℕ × ℚ × ℚ)) :
    armRun last (l1 ++ l2) = armRun last l1 ++ armRun (armLast last l1) l2 := by
  induction l1 generalizing last with
  | nil => rfl
  | cons p ps ih => simp [armRun, armLast, ih]

/-- armRun produces one outcome per packet. -/
theorem armRun_length (last : ℕ) (l : List (ℕ × ℚ × ℚ)) :
    (armRun last l).length = l.length := by
  induction l generalizing last with
  | nil => rfl
  | cons p ps ih => simp [armRun, ih]

/-- While every packet arrives within 500 ms of time T and the stored
rate-limit timestamp is at least T, every packet is blocked and the
timestamp is unchanged. -/
theorem armRun_blocked (T : ℕ) (l : List (ℕ × ℚ × ℚ)) (L : ℕ) (hL : T ≤ L)
    (hl : ∀ s ∈ l, s.1 < T + 500) :
    armRun L l = l.map (fun _ => false) ∧ armLast L l = L := by
  induction l with
  | nil => exact ⟨rfl, rfl⟩
  | cons p ps ih =>
    have hp : p.1 < T + 500 := hl p (by simp)
    have hstep : armStep L p.1 p.2.1 p.2.2 = ([], L) := by
      unfold armStep
      rw [if_pos (by omega : p.1 - L < 500)]
    obtain ⟨h1, h2⟩ := ih (fun s hs => hl s (List.mem_cons_of_mem _ hs))
    constructor
    · simp [armRun, hstep, h1]
    · simp [armLast, hstep, h2]

/-- A packet that issues an arm move advances the rate-limit timestamp to its
own arrival time. -/
theorem armStep_moved (L t : ℕ) (x y : ℚ) (h : (armStep L t x y).1 ≠ []) :
    (armStep L t x y).2 = t := by
  unfold armStep at h ⊢
  by_cases hb : t - L < 500
  · rw [if_pos hb] at h
    exact absurd rfl h
  · rw [if_neg hb] at h ⊢
    simp only at h ⊢
    rw [if_neg h]

/-- Claim C6: in any sequence of type 3 packets, if the packet p issues an
arm move at its time p.1, then every later packet arriving before p.1 + 500
issues no move; the hypothesis on the packets between p and q is automatic
for the monotone millis clock once q itself arrives inside the window.  In
particular two packets 100 ms apart move only on the first (see witness). -/
theorem c6_arm_rate_limit (last0 : ℕ) (pre suf1 suf2 : List (ℕ × ℚ × ℚ))
    (p q : ℕ × ℚ × ℚ)
    (hmoved : (armRun last0 (pre ++ p :: (suf1 ++ q :: suf2)))[pre.length]? = some true)
    (hsuf : ∀ s ∈ suf1, s.1 < p.1 + 500)
    (hqt : q.1 < p.1 + 500) :
    (armRun last0 (pre ++ p :: (suf1 ++ q :: suf2)))[pre.length + 1 + suf1.length]?
      = some false := by
  have hsplit1 : armRun last0 (pre ++ p :: (suf1 ++ q :: suf2))
      = armRun last0 pre ++ armRun (armLast last0 pre) (p :: (suf1 ++ q :: suf2)) :=
    armRun_append last0 pre (p :: (suf1 ++ q :: suf2))
  have hhead : armRun (armLast last0 pre) (p :: (suf1 ++ q :: suf2))
      = (!(armStep (armLast last0 pre) p.1 p.2.1 p.2.2).1.isEmpty)
        :: armRun (armStep (armLast last0 pre) p.1 p.2.1 p.2.2).2 (suf1 ++ q :: suf2) := rfl
  have hidx : (armRun last0 (pre ++ p :: (suf1 ++ q :: suf2)))[pre.length]?
      = some (!(armStep (armLast last0 pre) p.1 p.2.1 p.2.2).1.isEmpty) := by
    rw [hsplit1, hhead]
    have hg := getElem_app_cons (armRun last0 pre)
      (!(armStep (armLast last0 pre) p.1 p.2.1 p.2.2).1.isEmpty)
      (armRun (armStep (armLast last0 pre) p.1 p.2.1 p.2.2).2 (suf1 ++ q :: suf2))
    rwa [armRun_length] at hg
  rw [hidx] at hmoved
  have hmv : (armStep (armLast last0 pre) p.1 p.2.1 p.2.2).1 ≠ [] := by
    intro h0
    rw [h0] at hmoved
    simp at hmoved
  have hL2 : (armStep (armLast last0 pre) p.1 p.2.1 p.2.2).2 = p.1 :=
    armStep_moved _ _ _ _ hmv
  obtain ⟨hb1, hb2⟩ := armRun_blocked p.1 suf1 p.1 le_rfl hsuf
  have hqblocked : armStep p.1 q.1 q.2.1 q.2.2 = ([], p.1) := by
    unfold armStep
    rw [if_pos (by omega : q.1 - p.1 < 500)]
  have htail : armRun p.1 (suf1 ++ q :: suf2)
      = (suf1.map fun _ => false) ++ false :: armRun p.1 suf2 := by
    rw [armRun_append, hb1, hb2]
    simp [armRun, hqblocked]
  rw [hsplit1, hhead, hL2, htail]
  have hassoc : armRun last0 pre
        ++ (!(armStep (armLast last0 pre) p.1 p.2.1 p.2.2).1.isEmpty)
          :: ((suf1.map fun _ => false) ++ false :: armRun p.1 suf2)
      = (armRun last0 pre
          ++ (!(armStep (armLast last0 pre) p.1 p.2.1 p.2.2).1.isEmpty)
            :: (suf1.map fun _ => false))
        ++ false :: armRun p.1 suf2 := by
    simp
  rw [hassoc]
  have hlen2 : (armRun last0 pre
      ++ (!(armStep (armLast last0 pre) p.1 p.2.1 p.2.2).1.isEmpty)
        :: (suf1.map fun _ => false)).length = pre.length + 1 + suf1.length := by
    simp [armRun_length]
    omega
  rw [← hlen2]
  exact getElem_app_cons _ _ _

/-- Witness for C6: two full-deflection packets 100 ms apart (times 1000 and
1100); the first issues a move and the second is blocked. -/
theorem c6_arm_rate_limit_witness :
    armRun 0 [(1000, 0, 1), (1100, 0, 1)] = [true, false] ∧
    (armRun 0 [(1000, 0, 1), (1100, 0, 1)])[1]? = some false := by
  have ha : armMoveAmount 1 = 1/5 := by
    rw [armMoveAmount, abs_one]
    norm_num [signQ]
  have hs1 : armStep 0 1000 0 1
      = ([(Side.left, Animation.linearBy (1/5) 100),
          (Side.right, Animation.linearBy (1/5) 100)], 1000) := by
    norm_num [armStep, ha]
    simp
  have hs2 : armStep 1000 1100 0 1 = ([], 1000) := by
    unfold armStep
    rw [if_pos (by norm_num : 1100 - 1000 < 500)]
  have hrun : armRun 0 [(1000, 0, 1), (1100, 0, 1)] = [true, false] := by
    simp [armRun, hs1, hs2]
  refine ⟨hrun, ?_⟩
  have h := c6_arm_rate_limit 0 [] [] [] (1000, 0, 1) (1100, 0, 1)
    (by simpa using congrArg (fun l => l[0]?) hrun) (by simp) (by norm_num)
  simpa using h

/-- A channel with an empty queue is unchanged by a tick. -/
theorem chanUpdateFrame_nil (c : Chan) (now : ℕ) (h : c.queue = []) :
    chanUpdateFrame c now = c := by
  obtain ⟨v, q, ms, vs⟩ := c
  obtain rfl : q = [] := h
  rfl

/-- A released (HIGH) pin never reports a push. -/
theorem isPushedStep_high (s : ButtonState) (now : ℕ) :
    (isPushedStep s now false).1 = false := by
  unfold isPushedStep
  split_ifs <;> simp_all

/-- Under a quiet state and quiet inputs, one loop iteration keeps the idle
timer and the quiet property; once the idle threshold is reached it
force-sets both treads to 0 and drives both eyes from the breathing wave. -/
theorem loopStep_quiet_spec (r : Robot) (now : ℕ) (inp : LoopIn)
    (hq : r.quiet) (hi : inp.quietIn) :
    (loopStep r now inp).millisIdleStart = r.millisIdleStart ∧
    (loopStep r now inp).quiet ∧
    (10000 ≤ now - r.millisIdleStart →
      (loopStep r now inp).leftTread.value = 0 ∧
      (loopStep r now inp).rightTread.value = 0 ∧
      (loopStep r now inp).leftEye.value = breathingWave ((now - r.millisIdleStart) % 3600) ∧
      (loopStep r now inp).rightEye.value = breathingWave ((now - r.millisIdleStart) % 3600)) := by
  obtain ⟨h1, h2, h3, h4, h5, h6, h7, h8, h9⟩ := hq
  obtain ⟨hp, hir⟩ := hi
  have hbusy : anyAnimatableBusy r = false := by
    simp [anyAnimatableBusy, h1, h2, h3, h4, h5, h6, h7, h8]
  have ha : animatablesUpdate r now = r := by
    unfold animatablesUpdate
    rw [hbusy]
    simp only [Bool.false_eq_true, if_false]
    rw [chanUpdateFrame_nil r.head now h1, chanUpdateFrame_nil r.leftArm now h2,
      chanUpdateFrame_nil r.rightArm now h3, chanUpdateFrame_nil r.eyeTilter now h4,
      chanUpdateFrame_nil r.leftTread now h5, chanUpdateFrame_nil r.rightTread now h6,
      chanUpdateFrame_nil r.leftEye now h7, chanUpdateFrame_nil r.rightEye now h8]
  have hau : audioUpdate r now = r := by
    unfold audioUpdate
    rw [h9]
  have hpb : (isPushedStep r.button now inp.pinLow).1 = false := by
    rw [hp]
    exact isPushedStep_high r.button now
  refine ⟨?_, ?_, ?_⟩
  · by_cases hidle : 10000 ≤ now - r.millisIdleStart <;>
      simp [loopStep, ha, hau, hir, hpb, hidle, setChanValue]
  · by_cases hidle : 10000 ≤ now - r.millisIdleStart <;>
      simp [loopStep, ha, hau, hir, hpb, hidle, setChanValue, Robot.quiet,
        h1, h2, h3, h4, h5, h6, h7, h8, h9]
  · intro hidle
    refine ⟨?_, ?_, ?_, ?_⟩ <;>
      simp [loopStep, ha, hau, hir, hpb, hidle, setChanValue]

/-- The quiet invariant and the idle timer are preserved along a run with
quiet inputs. -/
theorem runLoop_quiet (r : Robot) (steps : List (ℕ × LoopIn))
    (hq : r.quiet) (hsteps : ∀ s ∈ steps, s.2.quietIn) :
    (runLoop r steps).quiet ∧ (runLoop r steps).millisIdleStart = r.millisIdleStart := by
  induction steps generalizing r with
  | nil => exact ⟨hq, rfl⟩
  | cons s ss ih =>
    have hs : s.2.quietIn := hsteps s (by simp)
    obtain ⟨hid, hq2, -⟩ := loopStep_quiet_spec r s.1 s.2 hq hs
    obtain ⟨ih1, ih2⟩ := ih (loopStep r s.1 s.2) hq2
      (fun u hu => hsteps u (List.mem_cons_of_mem _ hu))
    refine ⟨ih1, ?_⟩
    calc (runLoop r (s :: ss)).millisIdleStart
        = (runLoop (loopStep r s.1 s.2) ss).millisIdleStart := rfl
      _ = (loopStep r s.1 s.2).millisIdleStart := ih2
      _ = r.millisIdleStart := hid

/-- Claim C7: once 10000 ms have elapsed on the idle timer with no activity
(all animation and audio queues empty, button pin released, no decoded
packet), every subsequent loop iteration force-sets both tread channel values
to exactly 0, and the idle timer is left untouched, so the forcing continues
until new activity resets it. -/
theorem c7_idle_treads (r0 : Robot) (pre : List (ℕ × LoopIn)) (t : ℕ) (inp : LoopIn)
    (hq : r0.quiet) (hpre : ∀ s ∈ pre, s.2.quietIn) (hinp : inp.quietIn)
    (hidle : r0.millisIdleStart + 10000 ≤ t) :
    (runLoop r0 (pre ++ [(t, inp)])).leftTread.value = 0 ∧
    (runLoop r0 (pre ++ [(t, inp)])).rightTread.value = 0 ∧
    (runLoop r0 (pre ++ [(t, inp)])).millisIdleStart = r0.millisIdleStart := by
  obtain ⟨hmidq, hmid⟩ := runLoop_quiet r0 pre hq hpre
  have hrun : runLoop r0 (pre ++ [(t, inp)]) = loopStep (runLoop r0 pre) t inp := by
    unfold runLoop
    rw [List.foldl_append]
    rfl
  obtain ⟨hid, -, hforce⟩ := loopStep_quiet_spec (runLoop r0 pre) t inp hmidq hinp
  have hcond : 10000 ≤ t - (runLoop r0 pre).millisIdleStart := by
    rw [hmid]
    omega
  obtain ⟨hl, hr, -, -⟩ := hforce hcond
  rw [hrun]
  exact ⟨hl, hr, by rw [hid, hmid]⟩

/-- Witness for C7: from the quiet startup state, a single iteration at time
10000 with no inputs forces both treads to 0 and keeps the idle timer. -/
theorem c7_idle_treads_witness :
    (runLoop rQuiet [(10000, ⟨false, none⟩)]).leftTread.value = 0 ∧
    (runLoop rQuiet [(10000, ⟨false, none⟩)]).rightTread.value = 0 ∧
    (runLoop rQuiet [(10000, ⟨false, none⟩)]).millisIdleStart = rQuiet.millisIdleStart := by
  have h := c7_idle_treads rQuiet [] 10000 ⟨false, none⟩
    ⟨rfl, rfl, rfl, rfl, rfl, rfl, rfl, rfl, rfl⟩ (by simp) ⟨rfl, rfl⟩
    (by norm_num [rQuiet])
  simpa using h

/-- First-half closed form of the breathing wave. -/
theorem breathingWave_lt (p : ℕ) (h : p < 1800) :
    breathingWave p = 1 - (p : ℚ) / 1800 := by
  unfold breathingWave
  rw [if_pos (by exact_mod_cast h)]

/-- Second-half closed form of the breathing wave. -/
theorem breathingWave_ge (p : ℕ) (h : 1800 ≤ p) :
    breathingWave p = -1 + (p : ℚ) / 1800 := by
  unfold breathingWave
  rw [if_neg (by rw [not_lt]; exact_mod_cast h)]

/-- The breathing wave stays inside [-1, 1] on its period. -/
theorem breathingWave_mem (p : ℕ) (h : p < 3600) :
    -1 ≤ breathingWave p ∧ breathingWave p ≤ 1 := by
  by_cases h1 : p < 1800
  · rw [breathingWave_lt p h1]
    have h0 : (0 : ℚ) ≤ (p : ℚ) := Nat.cast_nonneg p
    have h2 : (p : ℚ) ≤ 1800 := by exact_mod_cast h1.le
    constructor <;> linarith
  · rw [breathingWave_ge p (not_lt.mp h1)]
    have h2 : (p : ℚ) ≤ 3600 := by exact_mod_cast h.le
    have h3 : (1800 : ℚ) ≤ (p : ℚ) := by exact_mod_cast not_lt.mp h1
    constructor <;> linarith

/-- Adjacent phases of the breathing wave differ by exactly 1/1800, also
across the branch point 1800 and across the wraparound, so the wave is
continuous there. -/
theorem breathingWave_step (p : ℕ) (h : p < 3600) :
    |breathingWave ((p + 1) % 3600) - breathingWave p| = 1/1800 := by
  by_cases hA : p + 1 < 1800
  · rw [Nat.mod_eq_of_lt (by omega), breathingWave_lt _ hA, breathingWave_lt _ (by omega)]
    rw [show (((p + 1 : ℕ)) : ℚ) = (p : ℚ) + 1 by push_cast; ring]
    rw [show (1 - ((p : ℚ) + 1)/1800) - (1 - (p : ℚ)/1800) = -(1/1800) by ring]
    rw [abs_neg, abs_of_pos (by norm_num)]
  · by_cases hB : p + 1 = 1800
    · have hp : p = 1799 := by omega
      subst hp
      rw [Nat.mod_eq_of_lt (by omega)]
      rw [show 1799 + 1 = 1800 from rfl]
      rw [breathingWave_ge 1800 le_rfl, breathingWave_lt 1799 (by omega)]
      rw [show (-1 + ((1800 : ℕ) : ℚ)/1800) - (1 - ((1799 : ℕ) : ℚ)/1800) = -(1/1800) by
        push_cast
        ring]
      rw [abs_neg, abs_of_pos (by norm_num)]
    · by_cases hC : p + 1 < 3600
      · rw [Nat.mod_eq_of_lt hC, breathingWave_ge _ (by omega), breathingWave_ge _ (by omega)]
        rw [show (((p + 1 : ℕ)) : ℚ) = (p : ℚ) + 1 by push_cast; ring]
        rw [show (-1 + ((p : ℚ) + 1)/1800) - (-1 + (p : ℚ)/1800) = 1/1800 by ring]
        rw [abs_of_pos (by norm_num)]
      · have hp : p = 3599 := by omega
        subst hp
        rw [show (3599 + 1) % 3600 = 0 by norm_num]
        rw [breathingWave_lt 0 (by norm_num), breathingWave_ge 3599 (by norm_num)]
        rw [show (1 - ((0 : ℕ) : ℚ)/1800) - (-1 + ((3599 : ℕ) : ℚ)/1800) = 1/1800 by
          push_cast
          ring]
        rw [abs_of_pos (by norm_num)]

/-- Claim C8: while idling, a loop iteration directly sets both eye channel
values (their queues untouched) to the triangle wave of the phase
(now - idleStart) mod 3600; the wave has value 1 at phase 0, value 0 at phase
1800, adjacent phases differ by exactly 1/1800 (continuity at the branch
point and at wraparound), and every value lies in [-1, 1]. -/
theorem c8_breathing (r : Robot) (t : ℕ) (inp : LoopIn)
    (hq : r.quiet) (hi : inp.quietIn) (hidle : r.millisIdleStart + 10000 ≤ t) :
    ((loopStep r t inp).leftEye.value = breathingWave ((t - r.millisIdleStart) % 3600) ∧
     (loopStep r t inp).rightEye.value = breathingWave ((t - r.millisIdleStart) % 3600) ∧
     (loopStep r t inp).leftEye.queue = r.leftEye.queue ∧
     (loopStep r t inp).rightEye.queue = r.rightEye.queue) ∧
    breathingWave 0 = 1 ∧
    breathingWave 1800 = 0 ∧
    (∀ p, p < 3600 → |breathingWave ((p + 1) % 3600) - breathingWave p| = 1/1800) ∧
    (∀ p, p < 3600 → -1 ≤ breathingWave p ∧ breathingWave p ≤ 1) := by
  obtain ⟨-, hq2, hforce⟩ := loopStep_quiet_spec r t inp hq hi
  have hcond : 10000 ≤ t - r.millisIdleStart := by omega
  obtain ⟨-, -, hle, hre⟩ := hforce hcond
  refine ⟨⟨hle, hre, ?_, ?_⟩, ?_, ?_, breathingWave_step, breathingWave_mem⟩
  · rw [hq2.2.2.2.2.2.2.1, hq.2.2.2.2.2.2.1]
  · rw [hq2.2.2.2.2.2.2.2.1, hq.2.2.2.2.2.2.2.1]
  · rw [breathingWave_lt 0 (by norm_num)]
    norm_num
  · rw [breathingWave_ge 1800 le_rfl]
    norm_num

/-- Witness for C8: one idle iteration of the quiet startup state drives both
eyes from the breathing wave. -/
theorem c8_breathing_witness :
    (loopStep rQuiet 10000 ⟨false, none⟩).leftEye.value
      = breathingWave ((10000 - rQuiet.millisIdleStart) % 3600) ∧
    (loopStep rQuiet 10000 ⟨false, none⟩).rightEye.value
      = breathingWave ((10000 - rQuiet.millisIdleStart) % 3600) :=
  ⟨(c8_breathing rQuiet 10000 ⟨false, none⟩ ⟨rfl, rfl, rfl, rfl, rfl, rfl, rfl, rfl, rfl⟩
      ⟨rfl, rfl⟩ (by norm_num [rQuiet])).1.1,
   (c8_breathing rQuiet 10000 ⟨false, none⟩ ⟨rfl, rfl, rfl, rfl, rfl, rfl, rfl, rfl, rfl⟩
      ⟨rfl, rfl⟩ (by norm_num [rQuiet])).1.2.1⟩

/-- buttonRun distributes over append, threading the state. -/
theorem buttonRun_append (s : ButtonState) (l1 l2 : List (ℕ × Bool)) :
    buttonRun s (l1 ++ l2) = buttonRun s l1 ++ buttonRun (buttonFinal s l1) l2 := by
  induction l1 generalizing s with
  | nil => rfl
  | cons p ps ih => simp [buttonRun, buttonFinal, ih]

/-- buttonRun produces one outcome per scan. -/
theorem buttonRun_length (s : ButtonState) (l : List (ℕ × Bool)) :
    (buttonRun s l).length = l.length := by
  induction l generalizing s with
  | nil => rfl
  | cons p ps ih => simp [buttonRun, ih]

/-- A scan that reports a push stamps the scan time, clears the released
flag, and presupposes a LOW pin and a set released flag. -/
theorem isPushedStep_true (s : ButtonState) (now : ℕ) (pinLow : Bool)
    (h : (isPushedStep s now pinLow).1 = true) :
    (isPushedStep s now pinLow).2 = ⟨now, false⟩ ∧ pinLow = true ∧ s.released = true := by
  unfold isPushedStep at h ⊢
  split_ifs at h ⊢ with h1 h2 h3
  simp_all

/-- While every scan arrives within 100 ms of time T and the debounce stamp
is at least T, nothing is reported and the state is unchanged. -/
theorem buttonRun_blocked (T : ℕ) (l : List (ℕ × Bool)) (s : ButtonState)
    (hT : T ≤ s.last) (hl : ∀ m ∈ l, m.1 < T + 100) :
    buttonRun s l = l.map (fun _ => false) ∧ buttonFinal s l = s := by
  induction l with
  | nil => exact ⟨rfl, rfl⟩
  | cons p ps ih =>
    have hp : p.1 < T + 100 := hl p (by simp)
    have hstep : isPushedStep s p.1 p.2 = (false, s) := by
      unfold isPushedStep
      rw [if_pos (by omega : p.1 - s.last < 100)]
    obtain ⟨ih1, ih2⟩ := ih (fun m hm => hl m (List.mem_cons_of_mem _ hm))
    constructor <;> simp [buttonRun, buttonFinal, hstep, ih1, ih2]

/-- While the pin stays LOW, a cleared released flag stays cleared. -/
theorem buttonFinal_low (l : List (ℕ × Bool)) (s : ButtonState)
    (hs : s.released = false) (hl : ∀ m ∈ l, m.2 = true) :
    (buttonFinal s l).released = false := by
  induction l generalizing s with
  | nil => exact hs
  | cons p ps ih =>
    have hp : p.2 = true := hl p (by simp)
    have hnext : (isPushedStep s p.1 p.2).2.released = false := by
      unfold isPushedStep
      split_ifs with h1 h2 h3
      · exact hs
      · rfl
      · rw [hp] at h3
        simp at h3
      · exact hs
    exact ih _ hnext (fun m hm => hl m (List.mem_cons_of_mem _ hm))

/-- With the released flag cleared, no push is reported. -/
theorem isPushedStep_needs_released (s : ButtonState) (now : ℕ) (pinLow : Bool)
    (h : s.released = false) : (isPushedStep s now pinLow).1 = false := by
  unfold isPushedStep
  split_ifs with h1 h2 h3
  · rfl
  · rw [h] at h2
    simp at h2
  · rfl
  · rfl

/-- Claim C9: a push is reported at most once per physical press.  If scan a
reports a push then (i) a later scan b reports a push only if the pin was
observed HIGH at some scan between them (the button must be seen released
since the previous trigger), and (ii) any scan b within 100 ms of a, with
the scans in between also inside that window (automatic for the monotone
millis clock), reports no push — so two presses less than 100 ms apart yield
a single trigger event. -/
theorem c9_button_debounce (s0 : ButtonState) (pre mid post : List (ℕ × Bool))
    (a b : ℕ × Bool)
    (ha : (buttonRun s0 (pre ++ a :: (mid ++ b :: post)))[pre.length]? = some true) :
    ((buttonRun s0 (pre ++ a :: (mid ++ b :: post)))[pre.length + 1 + mid.length]?
        = some true → ∃ m ∈ mid, m.2 = false) ∧
    ((∀ m ∈ mid, m.1 < a.1 + 100) → b.1 < a.1 + 100 →
      (buttonRun s0 (pre ++ a :: (mid ++ b :: post)))[pre.length + 1 + mid.length]?
        = some false) := by
  have hsplit1 : buttonRun s0 (pre ++ a :: (mid ++ b :: post))
      = buttonRun s0 pre ++ buttonRun (buttonFinal s0 pre) (a :: (mid ++ b :: post)) :=
    buttonRun_append s0 pre _
  have hhead : buttonRun (buttonFinal s0 pre) (a :: (mid ++ b :: post))
      = (isPushedStep (buttonFinal s0 pre) a.1 a.2).1
        :: buttonRun (isPushedStep (buttonFinal s0 pre) a.1 a.2).2 (mid ++ b :: post) := rfl
  have hidxa : (buttonRun s0 (pre ++ a :: (mid ++ b :: post)))[pre.length]?
      = some (isPushedStep (buttonFinal s0 pre) a.1 a.2).1 := by
    rw [hsplit1, hhead]
    have hg := getElem_app_cons (buttonRun s0 pre)
      (isPushedStep (buttonFinal s0 pre) a.1 a.2).1
      (buttonRun (isPushedStep (buttonFinal s0 pre) a.1 a.2).2 (mid ++ b :: post))
    rwa [buttonRun_length] at hg
  rw [hidxa] at ha
  have houtA : (isPushedStep (buttonFinal s0 pre) a.1 a.2).1 = true := by
    simpa using ha
  obtain ⟨hS2, -, -⟩ := isPushedStep_true _ _ _ houtA
  have hsplit2 : buttonRun (isPushedStep (buttonFinal s0 pre) a.1 a.2).2 (mid ++ b :: post)
      = buttonRun ⟨a.1, false⟩ mid
        ++ (isPushedStep (buttonFinal ⟨a.1, false⟩ mid) b.1 b.2).1
          :: buttonRun (isPushedStep (buttonFinal ⟨a.1, false⟩ mid) b.1 b.2).2 post := by
    rw [hS2, buttonRun_append]
    rfl
  have hidxb : (buttonRun s0 (pre ++ a :: (mid ++ b :: post)))[pre.length + 1 + mid.length]?
      = some (isPushedStep (buttonFinal ⟨a.1, false⟩ mid) b.1 b.2).1 := by
    rw [hsplit1, hhead, hsplit2]
    have hassoc : buttonRun s0 pre
        ++ (isPushedStep (buttonFinal s0 pre) a.1 a.2).1
          :: (buttonRun ⟨a.1, false⟩ mid
            ++ (isPushedStep (buttonFinal ⟨a.1, false⟩ mid) b.1 b.2).1
              :: buttonRun (isPushedStep (buttonFinal ⟨a.1, false⟩ mid) b.1 b.2).2 post)
        = (buttonRun s0 pre
            ++ (isPushedStep (buttonFinal s0 pre) a.1 a.2).1 :: buttonRun ⟨a.1, false⟩ mid)
          ++ (isPushedStep (buttonFinal ⟨a.1, false⟩ mid) b.1 b.2).1
            :: buttonRun (isPushedStep (buttonFinal ⟨a.1, false⟩ mid) b.1 b.2).2 post := by
      simp
    rw [hassoc]
    have hlen2 : (buttonRun s0 pre
        ++ (isPushedStep (buttonFinal s0 pre) a.1 a.2).1
          :: buttonRun ⟨a.1, false⟩ mid).length = pre.length + 1 + mid.length := by
      simp [buttonRun_length]
      omega
    rw [← hlen2]
    exact getElem_app_cons _ _ _
  constructor
  · intro hb
    rw [hidxb] at hb
    have houtB : (isPushedStep (buttonFinal ⟨a.1, false⟩ mid) b.1 b.2).1 = true := by
      simpa using hb
    by_contra hno
    push_neg at hno
    have hall : ∀ m ∈ mid, m.2 = true := by
      intro m hm
      have hne := hno m hm
      simpa using hne
    have hrel : (buttonFinal ⟨a.1, false⟩ mid).released = false :=
      buttonFinal_low mid ⟨a.1, false⟩ rfl hall
    have hfb : (isPushedStep (buttonFinal ⟨a.1, false⟩ mid) b.1 b.2).1 = false :=
      isPushedStep_needs_released _ _ _ hrel
    rw [hfb] at houtB
    exact absurd houtB (by simp)
  · intro hmid hb
    obtain ⟨-, hfin⟩ := buttonRun_blocked a.1 mid ⟨a.1, false⟩ le_rfl hmid
    have houtB : (isPushedStep (buttonFinal ⟨a.1, false⟩ mid) b.1 b.2).1 = false := by
      rw [hfin]
      unfold isPushedStep
      have hblock : b.1 - (⟨a.1, false⟩ : ButtonState).last < 100 := by
        show b.1 - a.1 < 100
        omega
      rw [if_pos hblock]
    rw [hidxb, houtB]

/-- Witness for C9: two LOW scans 50 ms apart (times 150 and 200); the first
reports a push, the second is absorbed by the 100 ms debounce window. -/
theorem c9_button_debounce_witness :
    buttonRun ⟨0, true⟩ [(150, true), (200, true)] = [true, false] ∧
    (buttonRun ⟨0, true⟩ [(150, true), (200, true)])[1]? = some false := by
  refine ⟨by decide, ?_⟩
  have h := c9_button_debounce ⟨0, true⟩ [] [] [] (150, true) (200, true) (by decide)
  have h2 := h.2 (by simp) (by norm_num)
  simpa using h2

/-- Claim C10: a Delay entry expires relative to the timestamp captured when
queueDelay enqueued it, not the time it reaches the front: the front Delay is
popped exactly when now exceeds millisStart + duration, whatever sits behind
it in the queue; consequently delays enqueued in the same iteration time out
concurrently, and two consecutive Delay(d) entries followed by a Play let the
Play fire on the third tick after the shared deadline passes — about d, not
2 d, after the shared enqueue time (see the witness for concrete numbers). -/
theorem c10_audio_delay (s d now : ℕ) (rest : List AEntry) (pl : List ℕ)
    (i n1 n2 n3 : ℕ) (h1 : s + d < n1) (h2 : n1 ≤ n2) (h3 : n2 ≤ n3) :
    ((audioFrame (AEntry.delay s d :: rest) pl now).1
      = if s + d < now then rest else AEntry.delay s d :: rest) ∧
    audioRun ([AEntry.delay s d, AEntry.delay s d, AEntry.play s i], pl) [n1, n2, n3]
      = ([], pl ++ [i]) := by
  constructor
  · have hred : audioFrame (AEntry.delay s d :: rest) pl now
        = if s + d < now then (rest, pl) else (AEntry.delay s d :: rest, pl) := rfl
    rw [hred]
    split_ifs <;> rfl
  · have e1 : audioFrame [AEntry.delay s d, AEntry.delay s d, AEntry.play s i] pl n1
        = ([AEntry.delay s d, AEntry.play s i], pl) := by
      rw [show audioFrame [AEntry.delay s d, AEntry.delay s d, AEntry.play s i] pl n1
          = if s + d < n1 then ([AEntry.delay s d, AEntry.play s i], pl)
            else ([AEntry.delay s d, AEntry.delay s d, AEntry.play s i], pl) from rfl]
      rw [if_pos h1]
    have e2 : audioFrame [AEntry.delay s d, AEntry.play s i] pl n2
        = ([AEntry.play s i], pl) := by
      rw [show audioFrame [AEntry.delay s d, AEntry.play s i] pl n2
          = if s + d < n2 then ([AEntry.play s i], pl)
            else ([AEntry.delay s d, AEntry.play s i], pl) from rfl]
      rw [if_pos (by omega : s + d < n2)]
    have e3 : audioFrame [AEntry.play s i] pl n3 = ([], pl ++ [i]) := rfl
    simp [audioRun, e1, e2, e3]

/-- Witness for C10: two 1000 ms delays enqueued at time 0 and a Play; ticks
at 1001, 1002 and 1003 issue the track, and 1003 is well before the 2000 ms a
sequential interpretation would require. -/
theorem c10_audio_delay_witness :
    audioRun ([AEntry.delay 0 1000, AEntry.delay 0 1000, AEntry.play 0 7], [])
        [1001, 1002, 1003] = ([], [] ++ [7]) ∧ 1003 < 0 + 2 * 1000 :=
  ⟨(c10_audio_delay 0 1000 0 [] [] 7 1001 1002 1003
      (by norm_num) (by norm_num) (by norm_num)).2,
   by norm_num⟩

end Walle2
